import Mathlib

/-!
# Verification of picobot core claims

Shallow embedding of the picobot repository (Go) in Lean 4, covering:

* `internal/providers/openai.go` — the OpenAI-compatible provider (`Chat`);
* the context assembler `BuildMessages` (internal/agent/context.go);
* `internal/channels/telegram.go` — `StartTelegramWithBase`, its inbound
  polling loop and outbound sender loop.

Effectful steps (file reads, HTTP transport, JSON decoding) are modelled as
explicit inputs: a file system is a map `String → Option String` (`none` for a
missing or unreadable file), the HTTP round trip is an `Except`-valued outcome,
JSON decoding of a response body and of tool-call argument strings are
oracle functions supplied in an environment record.  Go's `strings.TrimSpace`
is modelled by `trimSpace` below (ASCII whitespace).
-/

namespace Picobot

/-! ## Provider data model (internal/providers) -/

/-- Stand-in for Go's `map[string]interface{}` used for parsed tool-call
arguments: an association list of keys to (opaque) rendered values. -/
abbrev JsonObj := List (String × String)

/-- Go's `strings.TrimSpace`, modelled over the character list: leading and
trailing whitespace characters are removed.  (Go trims the full Unicode
white-space class; the claims only depend on ASCII whitespace.) -/
def trimSpace (s : String) : String :=
  String.mk ((s.data.dropWhile Char.isWhitespace).reverse.dropWhile Char.isWhitespace).reverse

/-- Go struct `providers.Message`: one prompt turn sent to the provider. -/
structure Message where
  role : String
  content : String
  toolCallID : String := ""
deriving Repr, DecidableEq, Inhabited

/-- Go struct `providers.ToolCall`: a model-requested invocation with parsed arguments. -/
structure ToolCall where
  id : String
  name : String
  arguments : JsonObj
deriving Repr, DecidableEq, Inhabited

/-- Go struct `providers.LLMResponse`: the simplified provider response. -/
structure LLMResponse where
  content : String
  hasToolCalls : Bool
  toolCalls : List ToolCall := []
deriving Repr, DecidableEq, Inhabited

/-- Go struct `toolCallFunctionJSON`: name and raw (undecoded) JSON argument string. -/
structure ToolCallFunctionJSON where
  name : String
  arguments : String
deriving Repr, DecidableEq, Inhabited

/-- Go struct `toolCallJSON`: one tool call as it appears in the wire response. -/
structure ToolCallJSON where
  id : String
  type : String
  function : ToolCallFunctionJSON
deriving Repr, DecidableEq, Inhabited

/-- Go struct `messageResponseJSON`: the assistant message inside one choice. -/
structure MessageResponseJSON where
  role : String
  content : String
  toolCalls : List ToolCallJSON := []
deriving Repr, DecidableEq, Inhabited

/-- One element of `chatResponse.Choices`. -/
structure Choice where
  message : MessageResponseJSON
deriving Repr, DecidableEq, Inhabited

/-- Go struct `chatResponse`: the decoded chat-completion response body. -/
structure ChatResponse where
  choices : List Choice
deriving Repr, DecidableEq, Inhabited

/-- Go struct `OpenAIProvider`: API key and base URL (the HTTP client itself is part of
the effect environment below). -/
structure OpenAIProvider where
  apiKey : String
  apiBase : String
deriving Repr, DecidableEq, Inhabited

/-- Go method `GetDefaultModel`. -/
def OpenAIProvider.GetDefaultModel (_p : OpenAIProvider) : String := "gpt-4o-mini"

/-- The `if model == "" { model = p.GetDefaultModel() }` defaulting step of
`Chat` (it only affects the request body, which the effect environment
abstracts, so `Chat` below does not consume its result). -/
def resolveModel (p : OpenAIProvider) (model : String) : String :=
  if model = "" then p.GetDefaultModel else model

/-- An HTTP response as observed by `Chat`: status code, the status line text
(Go's `resp.Status`, e.g. `"404 Not Found"`), and the raw body. -/
structure HttpResp where
  statusCode : Nat
  statusText : String
  body : String
deriving Repr, DecidableEq, Inhabited

/-- The effect environment of one `Chat` call: the outcome of each effectful
step in `internal/providers/openai.go`, in program order.
`marshalErr` is the error of `json.Marshal(reqBody)`, `newRequestErr` the
error of `http.NewRequestWithContext`, `doResult` the outcome of
`p.Client.Do(req)`, `decodeBody` the JSON decoder applied to the body, and
`parseArgs` the `json.Unmarshal` oracle for a tool call's argument string
(`none` when the arguments are not valid JSON). -/
structure ChatEnv where
  marshalErr : Option String
  newRequestErr : Option String
  doResult : Except String HttpResp
  decodeBody : String → Except String ChatResponse
  parseArgs : String → Option JsonObj

/-- The tool-call parsing loop of `Chat` (openai.go lines 176–185): each wire
tool call whose argument string parses as JSON becomes a `ToolCall`;
unparseable ones are skipped.  `filterMap` preserves the wire order. -/
def parseToolCalls (parseArgs : String → Option JsonObj)
    (tcs : List ToolCallJSON) : List ToolCall :=
  tcs.filterMap fun tc =>
    (parseArgs tc.function.arguments).map fun parsed =>
      { id := tc.id, name := tc.function.name, arguments := parsed }

/-- The error message built for a non-2xx status (openai.go lines 155–163):
the body is read, trimmed, and appended when non-empty. -/
def statusErrorMessage (r : HttpResp) : String :=
  let body := trimSpace r.body
  if body = "" then "OpenAI API error: " ++ r.statusText
  else "OpenAI API error: " ++ r.statusText ++ " - " ++ trimSpace r.body

/-- Go method `OpenAIProvider.Chat` (openai.go lines 90–192), with the effectful steps
drawn from `env`.  The request-body construction (lines 98–135) is pure
serialization whose outcome is summarised by `env.marshalErr`. -/
def OpenAIProvider.Chat (p : OpenAIProvider) (env : ChatEnv) :
    Except String LLMResponse :=
  if p.apiKey = "" then .error "OpenAI provider: API key is not configured"
  else
    match env.marshalErr with
    | some e => .error e
    | none =>
      match env.newRequestErr with
      | some e => .error e
      | none =>
        match env.doResult with
        | .error e => .error e
        | .ok resp =>
          if resp.statusCode < 200 ∨ 300 ≤ resp.statusCode then
            .error (statusErrorMessage resp)
          else
            match env.decodeBody resp.body with
            | .error e => .error e
            | .ok out =>
              match out.choices with
              | [] => .error "OpenAI API returned no choices"
              | c :: _ =>
                let msg := c.message
                if msg.toolCalls ≠ [] then
                  let tcs := parseToolCalls env.parseArgs msg.toolCalls
                  if tcs ≠ [] then
                    .ok { content := trimSpace msg.content, hasToolCalls := true,
                          toolCalls := tcs }
                  else
                    .ok { content := trimSpace msg.content, hasToolCalls := false }
                else
                  .ok { content := trimSpace msg.content, hasToolCalls := false }

/-- The disjunction of `Chat`'s provider-level failure conditions, in the
order the code checks them. -/
def chatFailureCondition (p : OpenAIProvider) (env : ChatEnv) : Prop :=
  p.apiKey = "" ∨
  env.marshalErr ≠ none ∨
  env.newRequestErr ≠ none ∨
  (∃ e, env.doResult = .error e) ∨
  (∃ r, env.doResult = .ok r ∧ (r.statusCode < 200 ∨ 300 ≤ r.statusCode)) ∨
  (∃ r e, env.doResult = .ok r ∧ ¬(r.statusCode < 200 ∨ 300 ≤ r.statusCode) ∧
    env.decodeBody r.body = .error e) ∨
  (∃ r out, env.doResult = .ok r ∧ ¬(r.statusCode < 200 ∨ 300 ≤ r.statusCode) ∧
    env.decodeBody r.body = .ok out ∧ out.choices = [])

/-! ## Concrete provider fixtures (used by witnesses) -/

/-- A provider with a configured API key. -/
def pOk : OpenAIProvider := { apiKey := "k", apiBase := "https://api.openai.com/v1" }

/-- A wire tool call whose argument string parses. -/
def tcGood : ToolCallJSON :=
  { id := "call-1", type := "function", function := { name := "echo", arguments := "goodargs" } }

/-- A wire tool call whose argument string does not parse. -/
def tcBad : ToolCallJSON :=
  { id := "call-2", type := "function", function := { name := "bad", arguments := "badargs" } }

/-- An assistant message with one parseable and one unparseable tool call. -/
def msgFix : MessageResponseJSON :=
  { role := "assistant", content := " hi ", toolCalls := [tcGood, tcBad] }

/-- A decoded response whose first choice is `msgFix`. -/
def outFix : ChatResponse := { choices := [{ message := msgFix }] }

/-- A 200 response. -/
def respFix : HttpResp := { statusCode := 200, statusText := "200 OK", body := "body" }

/-- Argument oracle: only `"goodargs"` parses. -/
def parseArgsFix : String → Option JsonObj :=
  fun s => if s = "goodargs" then some [("v", "42")] else none

/-- Effect environment for a fully successful call returning `outFix`. -/
def envFix : ChatEnv :=
  { marshalErr := none, newRequestErr := none, doResult := .ok respFix,
    decodeBody := fun _ => .ok outFix, parseArgs := parseArgsFix }

/-- The response `Chat pOk envFix` produces. -/
def rFix : LLMResponse :=
  { content := "hi", hasToolCalls := true,
    toolCalls := [{ id := "call-1", name := "echo", arguments := [("v", "42")] }] }

/-- An assistant message whose only tool call is unparseable. -/
def msgNoParse : MessageResponseJSON :=
  { role := "assistant", content := "txt", toolCalls := [tcBad] }

/-- A decoded response whose first choice is `msgNoParse`. -/
def outNoParse : ChatResponse := { choices := [{ message := msgNoParse }] }

/-- Effect environment delivering `outNoParse`. -/
def envNoParse : ChatEnv :=
  { marshalErr := none, newRequestErr := none, doResult := .ok respFix,
    decodeBody := fun _ => .ok outNoParse, parseArgs := parseArgsFix }

/-- The response `Chat pOk envNoParse` produces: content only, no tool calls. -/
def rNoParse : LLMResponse := { content := "txt", hasToolCalls := false, toolCalls := [] }

/-! ## Context assembler (internal/agent/context.go, `ContextBuilder.BuildMessages`)

The file system is an explicit map from path to `Option String` (`none` for a
missing or unreadable file, covering every `os.ReadFile` error).  The skills
loader `skills.Loader.LoadAll` lives in `internal/agent/skills`, which is not
part of the reviewed sources; it is modelled from the spec below. -/

/-- Go struct `memory.MemoryItem`, as consumed by `BuildMessages`. -/
structure MemoryItem where
  text : String
  kind : String
deriving Repr, DecidableEq, Inhabited

/-- Go struct `skills.Skill`, as consumed by `BuildMessages`. -/
structure Skill where
  name : String
  description : String
  content : String
deriving Repr, DecidableEq, Inhabited

/-- Go struct `agent.ContextBuilder`: workspace path, optional memory ranker,
and top-K bound.  The skills loader is part of the builder in Go; here its
load outcome is passed to `BuildMessages` explicitly. -/
structure ContextBuilder where
  workspace : String
  ranker : Option (String → List MemoryItem → Nat → List MemoryItem)
  topK : Nat

/-- Go's `filepath.Join(dir, name)` for a clean directory path and a bare
file name, the only way `BuildMessages` uses it. -/
def pathJoin (dir name : String) : String := dir ++ "/" ++ name

/-- Escaping of one character under Go's `%q` verb (quote and backslash; the
claims do not depend on `%q`'s escaping of control characters). -/
def goQuoteChar (c : Char) : String :=
  if c = '"' ∨ c = '\\' then String.mk ['\\', c] else String.mk [c]

/-- Go's `%q` formatting of a string: double-quoted with escaping. -/
def goQuote (s : String) : String :=
  "\"" ++ String.join (s.data.map goQuoteChar) ++ "\""

/-- The static system prompt, the first turn appended by `BuildMessages`. -/
def systemPromptMsg : Message :=
  { role := "system",
    content := "You are SMCHouseBot, a helpful assistant. Always reply in Brazilian Portuguese unless the user explicitly asks for another language. Use a dry, sarcastic tone inspired by Dr. House, while remaining helpful, precise, and technically competent." }

/-- The workspace bootstrap file names, in the order the code visits them. -/
def bootstrapFiles : List String := ["SOUL.md", "AGENTS.md", "USER.md", "TOOLS.md"]

/-- One iteration of the bootstrap loop: a missing or unreadable file, or a
file that is empty after trimming, contributes no turn; otherwise a system
turn headed by the file name is produced. -/
def bootstrapEntry (fs : String → Option String) (workspace name : String) :
    Option Message :=
  match fs (pathJoin workspace name) with
  | none => none
  | some data =>
    let content := trimSpace data
    if content ≠ "" then
      some { role := "system", content := "## " ++ name ++ "\n\n" ++ content }
    else none

/-- The bootstrap-file turns, in `bootstrapFiles` order. -/
def bootstrapSection (fs : String → Option String) (workspace : String) :
    List Message :=
  bootstrapFiles.filterMap (bootstrapEntry fs workspace)

/-- The channel/chatID notice turn (always present). -/
def channelNoticeMsg (channel chatID : String) : Message :=
  { role := "system",
    content := "You are operating on channel=" ++ goQuote channel ++ " chatID=" ++
      goQuote chatID ++
      ". You have full access to all registered tools regardless of the channel. Always use your tools when the user asks you to perform actions (file operations, shell commands, web fetches, etc.)." }

/-- The memory-tool instruction turn (always present). -/
def memoryToolInstructionMsg : Message :=
  { role := "system",
    content := "If you decide something should be remembered, call the tool \x27write_memory\x27 with JSON arguments: \x7b\"target\": \"today\"|\"long\", \"content\": \"...\", \"append\": true|false\x7d. Use a tool call rather than plain chat text when writing memory." }

/-- Modelled from the spec: the outcome of `skills.Loader.LoadAll`, whose
implementation (internal/agent/skills) is not among the reviewed sources.
Per the spec, failures to load optional inputs degrade to omission, so a
failed load contributes no skills; `BuildMessages` logs the error and
continues either way. -/
def loadedSkillsOf (r : Except String (List Skill)) : List Skill :=
  match r with
  | .error _ => []
  | .ok skills => skills

/-- The rendered skills catalog string. -/
def renderSkills (skills : List Skill) : String :=
  "Available Skills:\n" ++
    String.join (skills.map fun s =>
      "\n## " ++ s.name ++ "\n" ++ s.description ++ "\n\n" ++ s.content ++ "\n")

/-- The skills-catalog turn: present only when at least one skill loaded. -/
def skillsSection (r : Except String (List Skill)) : List Message :=
  let loadedSkills := loadedSkillsOf r
  if loadedSkills ≠ [] then
    [{ role := "system", content := renderSkills loadedSkills }]
  else []

/-- The file-based memory-context turn: omitted when the string is empty. -/
def memoryContextSection (memoryContext : String) : List Message :=
  if memoryContext ≠ "" then
    [{ role := "system", content := "Memory:\n" ++ memoryContext }]
  else []

/-- The ranker selection step: rank when a ranker is configured and the
memory list is non-empty, otherwise keep the list as is. -/
def selectedMemories (cb : ContextBuilder) (currentMessage : String)
    (memories : List MemoryItem) : List MemoryItem :=
  match cb.ranker with
  | some rank => if memories ≠ [] then rank currentMessage memories cb.topK else memories
  | none => memories

/-- The rendered ranked-memories string. -/
def renderMemories (selected : List MemoryItem) : String :=
  "Relevant memories:\n" ++
    String.join (selected.map fun m => "- " ++ m.text ++ " (" ++ m.kind ++ ")\n")

/-- The ranked-memories turn: omitted when the selection is empty. -/
def rankedMemoriesSection (selected : List MemoryItem) : List Message :=
  if selected ≠ [] then
    [{ role := "system", content := renderMemories selected }]
  else []

/-- The history replay loop: each non-empty history string (of the recorded
form "role: content") is emitted as a user-role turn with the string as its
content. -/
def historyMsgs (history : List String) : List Message :=
  history.filterMap fun h =>
    if h.length > 0 then some { role := "user", content := h } else none

/-- All turns `BuildMessages` appends before the history: static system
prompt, bootstrap files, channel notice, memory-tool instruction, skills
catalog, memory context, ranked memories — in that order. -/
def instructionTurns (cb : ContextBuilder) (fs : String → Option String)
    (skillsLoad : Except String (List Skill))
    (currentMessage channel chatID memoryContext : String)
    (memories : List MemoryItem) : List Message :=
  [systemPromptMsg] ++
  bootstrapSection fs cb.workspace ++
  [channelNoticeMsg channel chatID] ++
  [memoryToolInstructionMsg] ++
  skillsSection skillsLoad ++
  memoryContextSection memoryContext ++
  rankedMemoriesSection (selectedMemories cb currentMessage memories)

/-- Go method `ContextBuilder.BuildMessages`: the sequence of appends in the
source, flattened — instruction turns, then the replayed history, then the
current message as a final user turn. -/
def ContextBuilder.BuildMessages (cb : ContextBuilder) (fs : String → Option String)
    (skillsLoad : Except String (List Skill)) (history : List String)
    (currentMessage channel chatID memoryContext : String)
    (memories : List MemoryItem) : List Message :=
  instructionTurns cb fs skillsLoad currentMessage channel chatID memoryContext memories ++
  historyMsgs history ++
  [{ role := "user", content := currentMessage }]

/-! ## Context assembler fixtures -/

/-- A builder with no ranker over workspace `/ws`. -/
def cbFix : ContextBuilder := { workspace := "/ws", ranker := none, topK := 3 }

/-- A file system with no readable files. -/
def fsEmpty : String → Option String := fun _ => none

/-! ## Telegram adapter (internal/channels/telegram.go)

The two goroutines started by `StartTelegramWithBase` are modelled as trace
functions over explicit iteration schedules: each schedule entry records
whether the shared cancellation context is done at the head of that loop
iteration, and what the external world (Telegram server, hub subscription)
delivers during it.  Wall-clock values (`time.Now()` timestamps, sleeps) and
the HTTP client construction are not observable in the claims and are
omitted. -/

/-- Go struct `chat.Inbound` (the `Timestamp time.Now()` field, a wall-clock
read, is omitted). -/
structure Inbound where
  channel : String
  senderID : String
  chatID : String
  content : String
deriving Repr, DecidableEq, Inhabited

/-- Go struct `chat.Outbound`. -/
structure Outbound where
  channel : String
  chatID : String
  content : String
deriving Repr, DecidableEq, Inhabited

/-- The `from` object of a decoded Telegram update message. -/
structure TgFrom where
  id : Int
deriving Repr, DecidableEq, Inhabited

/-- A decoded Telegram update message (`message` field of one update). -/
structure TgMessage where
  messageID : Int
  fromUser : Option TgFrom
  chatID : Int
  text : String
deriving Repr, DecidableEq, Inhabited

/-- The smallest Go `int64` value, `-2^63`. -/
def minInt64 : Int := -9223372036854775808

/-- The largest Go `int64` value, `2^63 - 1`. -/
def maxInt64 : Int := 9223372036854775807

/-- Go `int64` two's-complement wrap-around of an integer: reduction into
`[-2^63, 2^63)` modulo `2^64`.  Go's signed addition wraps, so every
arithmetic step on an `int64` value goes through this. -/
def wrapInt64 (n : Int) : Int :=
  (n + 9223372036854775808) % 18446744073709551616 - 9223372036854775808

/-- One decoded Telegram update.  `update_id` is decoded by `encoding/json`
into an `int64`; arithmetic on it in the loop wraps via `wrapInt64`. -/
structure TgUpdate where
  updateID : Int
  message : Option TgMessage
deriving Repr, DecidableEq, Inhabited

/-- A decoded `int64` value: `encoding/json` only produces values in
`[-2^63, 2^63 - 1]`, and `updateID < maxInt64` additionally rules out the
one value whose increment overflows. -/
abbrev updateIDInRange (u : TgUpdate) : Prop :=
  minInt64 ≤ u.updateID ∧ u.updateID < maxInt64

/-- The decoded `getUpdates` response body (`ok` is decoded by the code but
never consulted). -/
structure GetUpdatesResult where
  ok : Bool
  result : List TgUpdate
deriving Repr, DecidableEq, Inhabited

/-- The sender id string: `strconv.FormatInt(m.From.ID, 10)` when `from` is
present, `""` otherwise. -/
def senderOf (m : TgMessage) : String :=
  match m.fromUser with
  | some f => toString f.id
  | none => ""

/-- The per-update publish decision of the inbound loop: a nil message is
skipped; when the allow list is non-empty an unknown sender is dropped;
otherwise an inbound message is published with channel `telegram`, the
sender id, the chat id as conversation id, and the message text.  (Go builds
a lookup set from `allowFrom`; set membership coincides with list
membership.) -/
def handleUpdate (allowFrom : List String) (upd : TgUpdate) : Option Inbound :=
  match upd.message with
  | none => none
  | some m =>
    if allowFrom ≠ [] ∧ senderOf m ∉ allowFrom then none
    else
      some { channel := "telegram", senderID := senderOf m,
             chatID := toString m.chatID, content := m.text }

/-- The batch-processing loop body of the inbound poller: for each update in
order, the offset is advanced to `updateID + 1` whenever `updateID ≥ offset`
(before the nil-message and allow-list checks), and the publish decision of
`handleUpdate` is recorded.  Returns the final offset and the published
inbound messages in order.  Both `offset` and `updateID` are Go `int64`
values, so the increment wraps at `maxInt64` via `wrapInt64`. -/
def processBatch (allowFrom : List String) : Int → List TgUpdate → Int × List Inbound
  | offset, [] => (offset, [])
  | offset, upd :: rest =>
    let off := if offset ≤ upd.updateID then wrapInt64 (upd.updateID + 1) else offset
    let st := processBatch allowFrom off rest
    match handleUpdate allowFrom upd with
    | none => st
    | some m => (st.1, m :: st.2)

/-- What one iteration of the inbound polling loop observes after issuing its
`getUpdates` request: a transport error (logged, sleep, continue), an
undecodable body (logged, continue), or a decoded batch. -/
inductive PollOutcome
  | transportError (e : String)
  | badJson (e : String)
  | batch (g : GetUpdatesResult)
deriving Repr, DecidableEq, Inhabited

/-- One scheduled iteration of the inbound polling loop: whether `ctx.Done()`
is ready at the `select` at the top of the iteration, and what the request
then observes. -/
structure PollIter where
  cancelled : Bool
  outcome : PollOutcome
deriving Repr, DecidableEq, Inhabited

/-- An observable action of the inbound polling goroutine. -/
inductive TgAction
  | getUpdatesRequest (offset : Int)
  | publish (m : Inbound)
deriving Repr, DecidableEq, Inhabited

/-- The inbound polling goroutine of `StartTelegramWithBase` as a trace
function: starting from `offset = 0` in the code, each iteration first checks
cancellation and returns if the context is done; otherwise it issues a
`getUpdates` request at the current offset and, on a decoded batch, publishes
per `processBatch` and carries the updated offset forward. -/
def pollLoop (allowFrom : List String) : Int → List PollIter → List TgAction
  | _, [] => []
  | offset, it :: rest =>
    if it.cancelled then []
    else
      match it.outcome with
      | .transportError _ => .getUpdatesRequest offset :: pollLoop allowFrom offset rest
      | .badJson _ => .getUpdatesRequest offset :: pollLoop allowFrom offset rest
      | .batch g =>
        let st := processBatch allowFrom offset g.result
        .getUpdatesRequest offset ::
          (st.2.map TgAction.publish ++ pollLoop allowFrom st.1 rest)

/-- One scheduled iteration of the outbound sender goroutine: the `select`
either sees `ctx.Done()` or receives one outbound message from the
subscription channel. -/
inductive OutIter
  | cancelled
  | recv (out : Outbound)
deriving Repr, DecidableEq, Inhabited

/-- An observable action of the outbound sender goroutine: one `sendMessage`
request issued for an outbound message (MarkdownV2 formatting and response
handling only log and do not alter the trace). -/
inductive OutAction
  | sendMessage (out : Outbound)
deriving Repr, DecidableEq, Inhabited

/-- The outbound sender goroutine as a trace function: it returns as soon as
the `select` sees the cancelled context, otherwise it sends each received
outbound message. -/
def senderLoop : List OutIter → List OutAction
  | [] => []
  | .cancelled :: _ => []
  | .recv out :: rest => .sendMessage out :: senderLoop rest

/-- The observable setup events of `StartTelegramWithBase`, in program
order. -/
inductive StartEvent
  | spawnInboundPoller
  | subscribeOutbound (tag : String)
  | spawnOutboundSender
deriving Repr, DecidableEq, Inhabited

/-- Go function `StartTelegramWithBase` as its program-order setup trace: an
empty base URL is rejected; otherwise the allowed-set construction and client
construction (pure) are followed by spawning the inbound polling goroutine,
subscribing to the hub's outbound queue for tag `telegram`, spawning the
outbound sender goroutine, and returning nil. -/
def startTelegramWithBase (base : String) : Except String (List StartEvent) :=
  if base = "" then .error "base URL is required"
  else .ok [.spawnInboundPoller, .subscribeOutbound "telegram", .spawnOutboundSender]

/-- The offsets of the `getUpdates` requests occurring in a trace, in order. -/
def requestedOffsets (actions : List TgAction) : List Int :=
  actions.filterMap fun a =>
    match a with
    | .getUpdatesRequest o => some o
    | .publish _ => none

/-! ## Telegram fixtures -/

/-- The setup trace of a successful `startTelegramWithBase`. -/
def startEventsFix : List StartEvent :=
  [.spawnInboundPoller, .subscribeOutbound "telegram", .spawnOutboundSender]

/-- A message from sender 123 in chat 456. -/
def tgMsgFix : TgMessage :=
  { messageID := 1, fromUser := some { id := 123 }, chatID := 456, text := "hello" }

/-- An update carrying `tgMsgFix`. -/
def updFix : TgUpdate := { updateID := 5, message := some tgMsgFix }

/-- An update with a lower id than `updFix`, and no message payload. -/
def updLow : TgUpdate := { updateID := 3, message := none }

/-- A batch whose ids arrive out of order. -/
def batchFix : List TgUpdate := [updFix, updLow]

/-- A later batch at an id past the advanced offset. -/
def nextBatchFix : List TgUpdate := [{ updateID := 7, message := some tgMsgFix }]

/-- An update at the largest decodable id, `MaxInt64`: incrementing the
offset past it wraps to `MinInt64`. -/
def updMax : TgUpdate := { updateID := maxInt64, message := none }

/-- An uncancelled polling iteration hitting a transport error. -/
def pollIterOkFix : PollIter := { cancelled := false, outcome := .transportError "eof" }

/-- A cancelled polling iteration. -/
def pollIterCancelledFix : PollIter :=
  { cancelled := true, outcome := .batch { ok := true, result := batchFix } }

/-- An outbound reply for the sender loop. -/
def obFix : Outbound := { channel := "telegram", chatID := "456", content := "reply" }

/-! ## Provider lemmas -/

/-- The id projection of parsed tool calls is a sublist of the wire ids:
parsing preserves order and only skips entries. -/
theorem parseToolCalls_map_id_sublist (f : String → Option JsonObj) (l : List ToolCallJSON) :
    List.Sublist ((parseToolCalls f l).map ToolCall.id) (l.map ToolCallJSON.id) := by
  induction l with
  | nil => simp [parseToolCalls]
  | cons tj rest ih =>
    cases h : f tj.function.arguments with
    | none =>
      have hstep : parseToolCalls f (tj :: rest) = parseToolCalls f rest := by
        simp [parseToolCalls, List.filterMap_cons, h]
      rw [hstep, List.map_cons]
      exact List.Sublist.cons _ ih
    | some parsed =>
      have hstep : parseToolCalls f (tj :: rest) =
          { id := tj.id, name := tj.function.name, arguments := parsed } ::
            parseToolCalls f rest := by
        simp [parseToolCalls, List.filterMap_cons, h]
      rw [hstep, List.map_cons, List.map_cons]
      exact List.Sublist.cons₂ _ ih

/-- Every parsed tool call comes from a wire tool call, keeping its id and
function name and parsing its argument string. -/
theorem parseToolCalls_mem (f : String → Option JsonObj) (l : List ToolCallJSON)
    (tc : ToolCall) (h : tc ∈ parseToolCalls f l) :
    ∃ tj ∈ l, tc.id = tj.id ∧ tc.name = tj.function.name ∧
      f tj.function.arguments = some tc.arguments := by
  rcases List.mem_filterMap.mp h with ⟨tj, htj, hmap⟩
  rcases Option.map_eq_some'.mp hmap with ⟨parsed, hp, htc⟩
  exact ⟨tj, htj, by simp [← htc], by simp [← htc], by simp [← htc, hp]⟩

/-- If no argument string parses, no tool call survives. -/
theorem parseToolCalls_all_none (f : String → Option JsonObj) (l : List ToolCallJSON)
    (h : ∀ tj ∈ l, f tj.function.arguments = none) :
    parseToolCalls f l = [] := by
  simp only [parseToolCalls, List.filterMap_eq_nil_iff]
  intro tj htj
  simp [h tj htj]

/-- Shape of every successful `Chat` result: a 2xx transport outcome, a
decodable body with at least one choice, and a response built from that first
choice with `hasToolCalls` tracking non-emptiness of the parsed tool calls. -/
theorem chat_ok_shape (p : OpenAIProvider) (env : ChatEnv) (r : LLMResponse)
    (hok : p.Chat env = .ok r) :
    p.apiKey ≠ "" ∧ env.marshalErr = none ∧ env.newRequestErr = none ∧
    ∃ resp out c cs, env.doResult = .ok resp ∧
      ¬(resp.statusCode < 200 ∨ 300 ≤ resp.statusCode) ∧
      env.decodeBody resp.body = .ok out ∧
      out.choices = c :: cs ∧
      r = { content := trimSpace c.message.content,
            hasToolCalls := !(parseToolCalls env.parseArgs c.message.toolCalls).isEmpty,
            toolCalls := parseToolCalls env.parseArgs c.message.toolCalls } := by
  unfold OpenAIProvider.Chat at hok
  split at hok
  · exact absurd hok (by simp)
  rename_i hkey
  split at hok
  · exact absurd hok (by simp)
  rename_i hmar
  split at hok
  · exact absurd hok (by simp)
  rename_i hreq
  split at hok
  · exact absurd hok (by simp)
  rename_i resp heqdo
  split at hok
  · exact absurd hok (by simp)
  rename_i hstat
  split at hok
  · exact absurd hok (by simp)
  rename_i out heqdec
  split at hok
  · exact absurd hok (by simp)
  rename_i c cs heqch
  refine ⟨hkey, hmar, hreq, resp, out, c, cs, heqdo, hstat, heqdec, heqch, ?_⟩
  simp only [ne_eq] at hok
  split at hok
  · rename_i htcne
    split at hok
    · rename_i htcsne
      cases hok
      have h1 : (parseToolCalls env.parseArgs c.message.toolCalls).isEmpty = false := by
        cases h2 : parseToolCalls env.parseArgs c.message.toolCalls with
        | nil => exact absurd h2 htcsne
        | cons a l => rfl
      simp [h1]
    · rename_i htcsnil
      push_neg at htcsnil
      cases hok
      simp [htcsnil]
  · rename_i htcnil
    push_neg at htcnil
    cases hok
    simp [parseToolCalls, htcnil]

/-- Every error returned by `Chat` is accounted for by one of the checked
failure conditions, in program order. -/
theorem chat_error_shape (p : OpenAIProvider) (env : ChatEnv) (e : String)
    (herr : p.Chat env = .error e) : chatFailureCondition p env := by
  unfold chatFailureCondition
  unfold OpenAIProvider.Chat at herr
  split at herr
  · rename_i hkey
    exact Or.inl hkey
  split at herr
  · rename_i e' hmar
    exact Or.inr (Or.inl (by simp [hmar]))
  split at herr
  · rename_i e' hreq
    exact Or.inr (Or.inr (Or.inl (by simp [hreq])))
  split at herr
  · rename_i e' hdo
    exact Or.inr (Or.inr (Or.inr (Or.inl ⟨e', hdo⟩)))
  rename_i resp hdo
  split at herr
  · rename_i hstat
    exact Or.inr (Or.inr (Or.inr (Or.inr (Or.inl ⟨resp, hdo, hstat⟩))))
  rename_i hstat
  split at herr
  · rename_i e' hdec
    exact Or.inr (Or.inr (Or.inr (Or.inr (Or.inr (Or.inl ⟨resp, e', hdo, hstat, hdec⟩)))))
  rename_i out hdec
  split at herr
  · rename_i hch
    exact Or.inr (Or.inr (Or.inr (Or.inr (Or.inr (Or.inr ⟨resp, out, hdo, hstat, hdec, hch⟩)))))
  rename_i c cs hch
  exfalso
  simp only [ne_eq] at herr
  split at herr
  · split at herr
    · exact Except.noConfusion herr
    · exact Except.noConfusion herr
  · exact Except.noConfusion herr

/-- C2: `OpenAIProvider.Chat` returns an error exactly when a provider-level
failure occurs — unset API key, request construction (marshal or request
build) failure, transport failure, non-2xx HTTP status, undecodable response
body, or a response with zero choices; otherwise it returns a response, and
the two outcomes are mutually exclusive by the `Except` return type. -/
theorem c2_chat_error_iff_failure (p : OpenAIProvider) (env : ChatEnv) :
    (∃ e, p.Chat env = .error e) ↔ chatFailureCondition p env := by
  constructor
  · rintro ⟨e, he⟩
    exact chat_error_shape p env e he
  · intro hf
    cases hres : p.Chat env with
    | error e => exact ⟨e, rfl⟩
    | ok r =>
      exfalso
      obtain ⟨hkey, hmar, hreq, resp, out, c, cs, hdo, hstat, hdec, hch, -⟩ :=
        chat_ok_shape p env r hres
      rcases hf with h | h | h | h | h | h | h
      · exact hkey h
      · exact h hmar
      · exact h hreq
      · obtain ⟨e, he⟩ := h
        rw [hdo] at he
        exact Except.noConfusion he
      · obtain ⟨r', hr', hcond⟩ := h
        rw [hdo] at hr'
        injection hr' with hr'
        subst hr'
        exact hstat hcond
      · obtain ⟨r', e, hr', hcond, hdec2⟩ := h
        rw [hdo] at hr'
        injection hr' with hr'
        subst hr'
        rw [hdec] at hdec2
        exact Except.noConfusion hdec2
      · obtain ⟨r', out2, hr', hcond, hdec2, hchoices⟩ := h
        rw [hdo] at hr'
        injection hr' with hr'
        subst hr'
        rw [hdec] at hdec2
        injection hdec2 with hout
        subst hout
        rw [hch] at hchoices
        exact List.noConfusion hchoices

/-- C3: every successful `Chat` result carries the whitespace-trimmed content
of the first choice's message; its `toolCalls` are exactly the parse of the
message's tool calls, preserving their wire order (the id projection is a
sublist of the wire id list), and each carries the wire id, function name,
and the parsed JSON arguments. -/
theorem c3_chat_success_first_choice
    (p : OpenAIProvider) (env : ChatEnv) (r : LLMResponse)
    (resp : HttpResp) (out : ChatResponse) (c : Choice) (cs : List Choice)
    (hdo : env.doResult = .ok resp)
    (hdec : env.decodeBody resp.body = .ok out)
    (hch : out.choices = c :: cs)
    (hok : p.Chat env = .ok r) :
    r.content = trimSpace c.message.content ∧
    r.toolCalls = parseToolCalls env.parseArgs c.message.toolCalls ∧
    List.Sublist (r.toolCalls.map ToolCall.id) (c.message.toolCalls.map ToolCallJSON.id) ∧
    ∀ tc ∈ r.toolCalls, ∃ tj ∈ c.message.toolCalls,
      tc.id = tj.id ∧ tc.name = tj.function.name ∧
      env.parseArgs tj.function.arguments = some tc.arguments := by
  obtain ⟨-, -, -, resp', out', c', cs', hdo', hstat', hdec', hch', hr⟩ :=
    chat_ok_shape p env r hok
  rw [hdo] at hdo'
  injection hdo' with h1
  subst h1
  rw [hdec] at hdec'
  injection hdec' with h2
  subst h2
  rw [hch] at hch'
  injection hch' with h3 h4
  subst h3
  subst h4
  subst hr
  refine ⟨rfl, rfl, parseToolCalls_map_id_sublist _ _, ?_⟩
  intro tc htc
  exact parseToolCalls_mem _ _ tc htc

/-- Concrete evaluation: `Chat` on `envFix` succeeds with `rFix`. -/
theorem chat_envFix_eval : pOk.Chat envFix = Except.ok rFix := by
  unfold OpenAIProvider.Chat pOk envFix respFix outFix msgFix tcGood tcBad parseArgsFix rFix
  simp [parseToolCalls]
  decide

/-- Concrete evaluation: `Chat` on `envNoParse` succeeds with `rNoParse`. -/
theorem chat_envNoParse_eval : pOk.Chat envNoParse = Except.ok rNoParse := by
  unfold OpenAIProvider.Chat pOk envNoParse respFix outNoParse msgNoParse tcBad parseArgsFix rNoParse
  simp [parseToolCalls]
  decide

/-- C3 witness: the theorem applied to a concrete successful call with one
parseable and one unparseable tool call. -/
theorem c3_witness :
    rFix.content = trimSpace msgFix.content ∧
    rFix.toolCalls = parseToolCalls envFix.parseArgs msgFix.toolCalls := by
  have h := c3_chat_success_first_choice pOk envFix rFix respFix outFix
    { message := msgFix } [] rfl rfl rfl chat_envFix_eval
  exact ⟨h.1, h.2.1⟩

/-- C9: every successful `Chat` result satisfies `hasToolCalls = true` iff
`toolCalls` is non-empty; when every tool call in the provider's message has
unparseable arguments, the result reports `hasToolCalls = false` with the
trimmed message content only. -/
theorem c9_hasToolCalls_invariant
    (p : OpenAIProvider) (env : ChatEnv) (r : LLMResponse)
    (hok : p.Chat env = .ok r) :
    (r.hasToolCalls = true ↔ r.toolCalls ≠ []) ∧
    (∀ resp out c cs, env.doResult = .ok resp →
      env.decodeBody resp.body = .ok out → out.choices = c :: cs →
      (∀ tj ∈ c.message.toolCalls, env.parseArgs tj.function.arguments = none) →
      r.hasToolCalls = false ∧ r.toolCalls = [] ∧
      r.content = trimSpace c.message.content) := by
  obtain ⟨-, -, -, resp', out', c', cs', hdo', hstat', hdec', hch', hr⟩ :=
    chat_ok_shape p env r hok
  subst hr
  constructor
  · cases hl : parseToolCalls env.parseArgs c'.message.toolCalls with
    | nil => simp [hl]
    | cons a l => simp [hl]
  · intro resp out c cs hdo hdec hch hnone
    rw [hdo'] at hdo
    injection hdo with h1
    subst h1
    rw [hdec'] at hdec
    injection hdec with h2
    subst h2
    rw [hch'] at hch
    injection hch with h3 h4
    subst h3
    have hz : parseToolCalls env.parseArgs c'.message.toolCalls = [] :=
      parseToolCalls_all_none _ _ hnone
    simp [hz]

/-- C9 witness: the theorem applied to a concrete call whose only tool call
has unparseable arguments. -/
theorem c9_witness :
    rNoParse.hasToolCalls = false ∧ rNoParse.toolCalls = [] ∧
    rNoParse.content = trimSpace msgNoParse.content := by
  have h := c9_hasToolCalls_invariant pOk envNoParse rNoParse chat_envNoParse_eval
  exact h.2 respFix outNoParse { message := msgNoParse } [] rfl rfl rfl (by decide)


/-! ## Context assembler lemmas -/

/-- Every bootstrap turn carries the system role. -/
theorem mem_bootstrapSection_role (fs : String → Option String) (w : String) :
    ∀ m ∈ bootstrapSection fs w, m.role = "system" := by
  intro m hm
  rcases List.mem_filterMap.mp hm with ⟨name, _, hentry⟩
  unfold bootstrapEntry at hentry
  split at hentry
  · exact Option.noConfusion hentry
  · simp only [ne_eq] at hentry
    split at hentry
    · injection hentry with hentry
      rw [← hentry]
    · exact Option.noConfusion hentry

/-- Every skills-catalog turn carries the system role. -/
theorem mem_skillsSection_role (r : Except String (List Skill)) :
    ∀ m ∈ skillsSection r, m.role = "system" := by
  intro m hm
  unfold skillsSection at hm
  simp only [ne_eq] at hm
  split at hm
  · simp only [List.mem_singleton] at hm
    subst hm
    rfl
  · simp at hm

/-- Every memory-context turn carries the system role. -/
theorem mem_memoryContextSection_role (mc : String) :
    ∀ m ∈ memoryContextSection mc, m.role = "system" := by
  intro m hm
  unfold memoryContextSection at hm
  simp only [ne_eq] at hm
  split at hm
  · simp only [List.mem_singleton] at hm
    subst hm
    rfl
  · simp at hm

/-- Every ranked-memories turn carries the system role. -/
theorem mem_rankedMemoriesSection_role (sel : List MemoryItem) :
    ∀ m ∈ rankedMemoriesSection sel, m.role = "system" := by
  intro m hm
  unfold rankedMemoriesSection at hm
  simp only [ne_eq] at hm
  split at hm
  · simp only [List.mem_singleton] at hm
    subst hm
    rfl
  · simp at hm

/-- C1: `BuildMessages` is total and never fails.  Its result is never empty
(the current inbound text is always a member, emitted as a user turn); a
missing or unreadable bootstrap file contributes no turn; a skills load
error contributes no skills-catalog turn; an empty memory-context string
contributes no memory turn; an empty ranked selection contributes no
ranked-memories turn — each failure degrades to omission, never to an error
(the embedding returns a plain `List Message`, mirroring the Go function's
error-free signature). -/
theorem c1_buildMessages_total_omission
    (cb : ContextBuilder) (fs : String → Option String)
    (skillsLoad : Except String (List Skill)) (history : List String)
    (currentMessage channel chatID memoryContext : String)
    (memories : List MemoryItem) :
    cb.BuildMessages fs skillsLoad history currentMessage channel chatID
      memoryContext memories ≠ [] ∧
    (∀ name ∈ bootstrapFiles, fs (pathJoin cb.workspace name) = none →
      bootstrapEntry fs cb.workspace name = none) ∧
    (∀ e, skillsLoad = .error e → skillsSection skillsLoad = []) ∧
    (memoryContext = "" → memoryContextSection memoryContext = []) ∧
    (selectedMemories cb currentMessage memories = [] →
      rankedMemoriesSection (selectedMemories cb currentMessage memories) = []) ∧
    { role := "user", content := currentMessage, toolCallID := "" } ∈
      cb.BuildMessages fs skillsLoad history currentMessage channel chatID
        memoryContext memories := by
  refine ⟨?_, ?_, ?_, ?_, ?_, ?_⟩
  · simp [ContextBuilder.BuildMessages]
  · intro name hname hfs
    simp [bootstrapEntry, hfs]
  · intro e he
    subst he
    simp [skillsSection, loadedSkillsOf]
  · intro h
    simp [memoryContextSection, h]
  · intro h
    simp [rankedMemoriesSection, h]
  · simp [ContextBuilder.BuildMessages]

/-- C1 witness: concrete builder, unreadable file system, failed skills
load, empty memory context and memory list. -/
theorem c1_witness :
    cbFix.BuildMessages fsEmpty (.error "boom") [] "hello" "telegram" "42" "" [] ≠ [] ∧
    bootstrapEntry fsEmpty cbFix.workspace "SOUL.md" = none ∧
    skillsSection (.error "boom") = [] ∧
    memoryContextSection "" = [] ∧
    rankedMemoriesSection (selectedMemories cbFix "hello" []) = [] ∧
    { role := "user", content := "hello", toolCallID := "" } ∈
      cbFix.BuildMessages fsEmpty (.error "boom") [] "hello" "telegram" "42" "" [] := by
  have h := c1_buildMessages_total_omission cbFix fsEmpty (.error "boom") []
    "hello" "telegram" "42" "" []
  exact ⟨h.1, h.2.1 "SOUL.md" (by decide) rfl, h.2.2.1 "boom" rfl,
    h.2.2.2.1 rfl, h.2.2.2.2.1 rfl, h.2.2.2.2.2⟩

/-- C4: the assembled sequence is the instruction turns (all system-role),
then the history turns, then the current inbound text as a user turn in last
position. -/
theorem c4_buildMessages_order
    (cb : ContextBuilder) (fs : String → Option String)
    (skillsLoad : Except String (List Skill)) (history : List String)
    (currentMessage channel chatID memoryContext : String)
    (memories : List MemoryItem) :
    cb.BuildMessages fs skillsLoad history currentMessage channel chatID
        memoryContext memories =
      instructionTurns cb fs skillsLoad currentMessage channel chatID
        memoryContext memories ++
      historyMsgs history ++ [{ role := "user", content := currentMessage }] ∧
    (∀ m ∈ instructionTurns cb fs skillsLoad currentMessage channel chatID
        memoryContext memories, m.role = "system") ∧
    (cb.BuildMessages fs skillsLoad history currentMessage channel chatID
        memoryContext memories).getLast? =
      some { role := "user", content := currentMessage } := by
  refine ⟨rfl, ?_, ?_⟩
  · intro m hm
    unfold instructionTurns at hm
    simp only [List.mem_append, List.mem_singleton] at hm
    rcases hm with ((((((hm | hm) | hm) | hm) | hm) | hm) | hm)
    · subst hm; rfl
    · exact mem_bootstrapSection_role fs cb.workspace m hm
    · subst hm; rfl
    · subst hm; rfl
    · exact mem_skillsSection_role skillsLoad m hm
    · exact mem_memoryContextSection_role memoryContext m hm
    · exact mem_rankedMemoriesSection_role _ m hm
  · unfold ContextBuilder.BuildMessages
    rw [List.getLast?_append_cons]
    rfl

/-- C4 witness: the theorem at concrete inputs; the static system prompt is
among the instruction turns and carries the system role. -/
theorem c4_witness :
    cbFix.BuildMessages fsEmpty (.ok []) ["user: hi"] "msg" "telegram" "42" "" [] =
      instructionTurns cbFix fsEmpty (.ok []) "msg" "telegram" "42" "" [] ++
      historyMsgs ["user: hi"] ++ [{ role := "user", content := "msg" }] ∧
    systemPromptMsg.role = "system" ∧
    (cbFix.BuildMessages fsEmpty (.ok []) ["user: hi"] "msg" "telegram" "42" "" []).getLast? =
      some { role := "user", content := "msg" } := by
  have h := c4_buildMessages_order cbFix fsEmpty (.ok []) ["user: hi"] "msg"
    "telegram" "42" "" []
  exact ⟨h.1, h.2.1 systemPromptMsg (by simp [instructionTurns]), h.2.2⟩

/-- C5 counterexample: a history turn recorded with the assistant role
("assistant: hi") appears in the assembled prompt as a user-role turn, and
no turn of the result carries the assistant role at all — refuting the claim
that a turn recorded with the assistant role appears as an assistant-role
turn. -/
theorem c5_counterexample :
    { role := "user", content := "assistant: hi", toolCallID := "" } ∈
      cbFix.BuildMessages fsEmpty (.ok []) ["assistant: hi"] "msg" "telegram" "42" "" [] ∧
    (cbFix.BuildMessages fsEmpty (.ok []) ["assistant: hi"] "msg" "telegram" "42" "" []).all
      (fun m => m.role != "assistant") = true := by
  decide

/-- C5 amended: history turns are recorded as strings of the form
"role: content"; the assembler emits each non-empty history string as a
user-role prompt turn whose content is the recorded string (so the recorded
role tag survives only as the content's "role:" prefix, not as the prompt
turn's role), preserving history order. -/
theorem c5_amended_history_replay
    (cb : ContextBuilder) (fs : String → Option String)
    (skillsLoad : Except String (List Skill)) (history : List String)
    (currentMessage channel chatID memoryContext : String)
    (memories : List MemoryItem) :
    historyMsgs history =
      (history.filter fun h => h.length > 0).map
        (fun h => { role := "user", content := h }) ∧
    (∀ m ∈ historyMsgs history, m.role = "user") ∧
    cb.BuildMessages fs skillsLoad history currentMessage channel chatID
        memoryContext memories =
      instructionTurns cb fs skillsLoad currentMessage channel chatID
        memoryContext memories ++
      historyMsgs history ++ [{ role := "user", content := currentMessage }] := by
  refine ⟨?_, ?_, rfl⟩
  · induction history with
    | nil => rfl
    | cons h rest ih =>
      by_cases hl : h.length > 0
      · simp only [historyMsgs] at ih ⊢
        simp [List.filterMap_cons, List.filter_cons, hl, ih]
      · simp only [historyMsgs] at ih ⊢
        simp [List.filterMap_cons, List.filter_cons, hl, ih]
  · intro m hm
    simp only [historyMsgs] at hm
    rcases List.mem_filterMap.mp hm with ⟨h, _, hg⟩
    split at hg
    · injection hg with hg
      rw [← hg]
    · exact Option.noConfusion hg

/-- C5 amended witness: a history entry recorded with the assistant role is
replayed and the emitted turn carries the user role. -/
theorem c5_witness :
    historyMsgs ["assistant: hi"] =
      ((["assistant: hi"].filter fun h => h.length > 0).map
        (fun h => { role := "user", content := h })) ∧
    ({ role := "user", content := "assistant: hi", toolCallID := "" } : Message).role =
      "user" := by
  have h := c5_amended_history_replay cbFix fsEmpty (.ok []) ["assistant: hi"]
    "msg" "telegram" "42" "" []
  exact ⟨h.1, h.2.1 { role := "user", content := "assistant: hi" } (by decide)⟩

/-! ## Telegram lemmas -/

/-- Concrete evaluation of the setup trace on a non-empty base URL. -/
theorem startTelegram_eval :
    startTelegramWithBase "https://t" = .ok startEventsFix := by
  rfl

/-- C6 counterexample: in the program-order setup trace of
`StartTelegramWithBase`, the inbound polling goroutine (the producer of
telegram-channel traffic this function starts) is spawned at position 0,
strictly before the outbound subscription for tag "telegram" at position 1 —
refuting the claim that the subscription is established before starting any
producer for that channel. -/
theorem c6_counterexample :
    startTelegramWithBase "https://t" = .ok startEventsFix ∧
    startEventsFix.indexOf StartEvent.spawnInboundPoller = 0 ∧
    startEventsFix.indexOf (StartEvent.subscribeOutbound "telegram") = 1 ∧
    ¬(startEventsFix.indexOf (StartEvent.subscribeOutbound "telegram") <
        startEventsFix.indexOf StartEvent.spawnInboundPoller) := by
  refine ⟨startTelegram_eval, by decide, by decide, by decide⟩

/-- C6 amended: `StartTelegramWithBase` establishes the outbound
subscription for tag "telegram" after spawning the inbound polling goroutine
but before spawning the outbound sender goroutine — so the subscription
exists before the outbound consumer starts and before the function returns
to its caller. -/
theorem c6_amended_subscribe_order (base : String) (events : List StartEvent)
    (hbase : ¬base = "") (h : startTelegramWithBase base = .ok events) :
    events = startEventsFix ∧
    events.indexOf StartEvent.spawnInboundPoller <
      events.indexOf (StartEvent.subscribeOutbound "telegram") ∧
    events.indexOf (StartEvent.subscribeOutbound "telegram") <
      events.indexOf StartEvent.spawnOutboundSender := by
  unfold startTelegramWithBase at h
  rw [if_neg hbase] at h
  injection h with h
  subst h
  refine ⟨rfl, by decide, by decide⟩

/-- C6 amended witness: the amended theorem at the concrete base URL. -/
theorem c6_witness :
    startEventsFix.indexOf StartEvent.spawnInboundPoller <
      startEventsFix.indexOf (StartEvent.subscribeOutbound "telegram") ∧
    startEventsFix.indexOf (StartEvent.subscribeOutbound "telegram") <
      startEventsFix.indexOf StartEvent.spawnOutboundSender := by
  have h := c6_amended_subscribe_order "https://t" startEventsFix (by decide)
    startTelegram_eval
  exact ⟨h.2.1, h.2.2⟩

/-- C7: allow-listing is enforced before publishing — with a non-empty allow
list an unknown sender is dropped (nothing published); with an empty allow
list every message update is published with channel "telegram", the sender
id, the chat id as conversation id, and the message text. -/
theorem c7_allowlist_enforcement (allowFrom : List String) (upd : TgUpdate) :
    (upd.message = none → handleUpdate allowFrom upd = none) ∧
    (∀ m, upd.message = some m → allowFrom ≠ [] → senderOf m ∉ allowFrom →
      handleUpdate allowFrom upd = none) ∧
    (∀ m, upd.message = some m → allowFrom = [] →
      handleUpdate allowFrom upd =
        some { channel := "telegram", senderID := senderOf m,
               chatID := toString m.chatID, content := m.text }) := by
  refine ⟨?_, ?_, ?_⟩
  · intro h
    simp [handleUpdate, h]
  · intro m hm hne hnot
    simp [handleUpdate, hm, hne, hnot]
  · intro m hm hemp
    subst hemp
    simp [handleUpdate, hm]

/-- C7 witness: sender 123 is dropped under allow list ["7"] and published
in open mode. -/
theorem c7_witness :
    handleUpdate ["7"] updFix = none ∧
    handleUpdate [] updFix =
      some { channel := "telegram", senderID := senderOf tgMsgFix,
             chatID := toString tgMsgFix.chatID, content := tgMsgFix.text } := by
  refine ⟨?_, ?_⟩
  · exact (c7_allowlist_enforcement ["7"] updFix).2.1 tgMsgFix rfl (by decide) (by decide)
  · exact (c7_allowlist_enforcement [] updFix).2.2 tgMsgFix rfl rfl

/-- Once the inbound polling loop sees the cancelled context at the top of an
iteration it returns: the trace is exactly the trace of the uncancelled
prefix, so no further requests or publishes occur. -/
theorem pollLoop_cancel_stops (allowFrom : List String) (pre : List PollIter) :
    ∀ (offset : Int) (it : PollIter) (post : List PollIter),
      (∀ x ∈ pre, x.cancelled = false) → it.cancelled = true →
      pollLoop allowFrom offset (pre ++ it :: post) = pollLoop allowFrom offset pre := by
  induction pre with
  | nil =>
    intro offset it post _ hit
    simp [pollLoop, hit]
  | cons x rest ih =>
    intro offset it post hpre hit
    have hx : x.cancelled = false := hpre x (List.mem_cons_self _ _)
    have hrest : ∀ y ∈ rest, y.cancelled = false :=
      fun y hy => hpre y (List.mem_cons_of_mem _ hy)
    cases hout : x.outcome with
    | transportError e =>
      simp [pollLoop, hx, hout, ih offset it post hrest hit]
    | badJson e =>
      simp [pollLoop, hx, hout, ih offset it post hrest hit]
    | batch g =>
      simp [pollLoop, hx, hout,
        ih (processBatch allowFrom offset g.result).1 it post hrest hit]

/-- Once the outbound sender loop sees the cancelled context it returns: the
trace is exactly the trace of the uncancelled prefix. -/
theorem senderLoop_cancel_stops (pre : List OutIter) :
    ∀ post : List OutIter, (∀ x ∈ pre, x ≠ OutIter.cancelled) →
      senderLoop (pre ++ OutIter.cancelled :: post) = senderLoop pre := by
  induction pre with
  | nil =>
    intro post _
    simp [senderLoop]
  | cons x rest ih =>
    intro post hpre
    have hx : x ≠ OutIter.cancelled := hpre x (List.mem_cons_self _ _)
    have hrest : ∀ y ∈ rest, y ≠ OutIter.cancelled :=
      fun y hy => hpre y (List.mem_cons_of_mem _ hy)
    cases x with
    | cancelled => exact absurd rfl hx
    | recv out => simp [senderLoop, ih post hrest]

/-- C8: after the shared cancellation context is cancelled, both adapter
loops terminate — at the first iteration whose head `select` sees the done
context, each loop's trace equals the trace of the uncancelled prefix: the
polling goroutine issues no further `getUpdates` requests and publishes no
further inbound messages, and the sender goroutine consumes and sends no
further outbound messages.  (Each scheduled iteration is modelled as running
to completion; cancellation is observed at the loop-head `select`, as in the
code.) -/
theorem c8_cancellation_terminates
    (allowFrom : List String) (offset : Int)
    (pre : List PollIter) (it : PollIter) (post : List PollIter)
    (hpre : ∀ x ∈ pre, x.cancelled = false) (hit : it.cancelled = true)
    (outPre outPost : List OutIter)
    (houtPre : ∀ x ∈ outPre, x ≠ OutIter.cancelled) :
    pollLoop allowFrom offset (pre ++ it :: post) = pollLoop allowFrom offset pre ∧
    senderLoop (outPre ++ OutIter.cancelled :: outPost) = senderLoop outPre :=
  ⟨pollLoop_cancel_stops allowFrom pre offset it post hpre hit,
   senderLoop_cancel_stops outPre outPost houtPre⟩

/-- C8 witness: concrete schedules where cancellation arrives after one
uncancelled iteration. -/
theorem c8_witness :
    pollLoop [] 0 ([pollIterOkFix] ++ pollIterCancelledFix :: [pollIterOkFix]) =
      pollLoop [] 0 [pollIterOkFix] ∧
    senderLoop ([OutIter.recv obFix] ++ OutIter.cancelled :: [OutIter.recv obFix]) =
      senderLoop [OutIter.recv obFix] :=
  c8_cancellation_terminates [] 0 [pollIterOkFix] pollIterCancelledFix [pollIterOkFix]
    (by decide) (by decide) [OutIter.recv obFix] [OutIter.recv obFix] (by decide)

/-- The final offset of a batch step ignores the publish decision. -/
theorem processBatch_fst (allowFrom : List String) (offset : Int)
    (upd : TgUpdate) (rest : List TgUpdate) :
    (processBatch allowFrom offset (upd :: rest)).1 =
      (processBatch allowFrom
        (if offset ≤ upd.updateID then wrapInt64 (upd.updateID + 1) else offset) rest).1 := by
  simp only [processBatch]
  cases handleUpdate allowFrom upd <;> rfl

/-- An in-range `int64` value is a fixed point of the wrap-around. -/
theorem wrapInt64_eq_self (n : Int) (h1 : minInt64 ≤ n) (h2 : n ≤ maxInt64) :
    wrapInt64 n = n := by
  unfold wrapInt64
  unfold minInt64 at h1
  unfold maxInt64 at h2
  rw [Int.emod_eq_of_lt (by omega) (by omega)]
  omega

/-- The batch loop never decreases the offset and leaves it strictly above
every update id seen in the batch, provided every id in the batch is a
decodable `int64` strictly below `maxInt64` (so no increment wraps). -/
theorem processBatch_dominates (allowFrom : List String) (batch : List TgUpdate) :
    ∀ offset : Int, (∀ u ∈ batch, updateIDInRange u) →
      offset ≤ (processBatch allowFrom offset batch).1 ∧
      ∀ u ∈ batch, u.updateID < (processBatch allowFrom offset batch).1 := by
  induction batch with
  | nil =>
    intro offset _
    exact ⟨le_refl _, by simp [processBatch]⟩
  | cons upd rest ih =>
    intro offset hrange
    obtain ⟨hlo, hhi⟩ := hrange upd (List.mem_cons_self _ _)
    have hrest : ∀ u ∈ rest, updateIDInRange u :=
      fun u hu => hrange u (List.mem_cons_of_mem _ hu)
    have hwrap : wrapInt64 (upd.updateID + 1) = upd.updateID + 1 :=
      wrapInt64_eq_self _ (by unfold minInt64 at hlo ⊢; omega)
        (by unfold maxInt64 at hhi ⊢; omega)
    have hstep := processBatch_fst allowFrom offset upd rest
    rw [hwrap] at hstep
    by_cases hle : offset ≤ upd.updateID
    · rw [if_pos hle] at hstep
      obtain ⟨h1, h2⟩ := ih (upd.updateID + 1) hrest
      refine ⟨?_, ?_⟩
      · rw [hstep]; omega
      · intro u hu
        rcases List.mem_cons.mp hu with rfl | hu
        · rw [hstep]; omega
        · rw [hstep]; exact h2 u hu
    · rw [if_neg hle] at hstep
      obtain ⟨h1, h2⟩ := ih offset hrest
      refine ⟨?_, ?_⟩
      · rw [hstep]; exact h1
      · intro u hu
        rcases List.mem_cons.mp hu with rfl | hu
        · rw [hstep]; omega
        · rw [hstep]; exact h2 u hu

/-- Publish actions contribute no requested offsets. -/
theorem requestedOffsets_publish_append (msgs : List Inbound) (t : List TgAction) :
    requestedOffsets (msgs.map TgAction.publish ++ t) = requestedOffsets t := by
  induction msgs with
  | nil => rfl
  | cons m rest ih =>
    simp only [List.map_cons, List.cons_append, requestedOffsets,
      List.filterMap_cons] at ih ⊢
    exact ih

/-- Request actions contribute their offset to the requested-offset list. -/
theorem requestedOffsets_request_cons (o : Int) (t : List TgAction) :
    requestedOffsets (TgAction.getUpdatesRequest o :: t) = o :: requestedOffsets t := by
  simp [requestedOffsets, List.filterMap_cons]

/-- Every offset requested by the polling loop is at least the starting
offset, and the requested offsets are non-decreasing along the trace. -/
theorem requestedOffsets_pollLoop (allowFrom : List String) (iters : List PollIter) :
    ∀ offset : Int,
      (∀ it ∈ iters, ∀ g, it.outcome = PollOutcome.batch g →
        ∀ u ∈ g.result, updateIDInRange u) →
      (∀ o ∈ requestedOffsets (pollLoop allowFrom offset iters), offset ≤ o) ∧
      List.Chain' (· ≤ ·) (requestedOffsets (pollLoop allowFrom offset iters)) := by
  induction iters with
  | nil =>
    intro offset _
    exact ⟨by simp [pollLoop, requestedOffsets], by simp [pollLoop, requestedOffsets]⟩
  | cons it rest ih =>
    intro offset hiters
    have hrest2 : ∀ it2 ∈ rest, ∀ g, it2.outcome = PollOutcome.batch g →
        ∀ u ∈ g.result, updateIDInRange u :=
      fun it2 h2 => hiters it2 (List.mem_cons_of_mem _ h2)
    by_cases hc : it.cancelled
    · exact ⟨by simp [pollLoop, hc, requestedOffsets], by simp [pollLoop, hc, requestedOffsets]⟩
    · cases hout : it.outcome with
      | transportError e =>
        obtain ⟨ihmem, ihchain⟩ := ih offset hrest2
        have hred : requestedOffsets (pollLoop allowFrom offset (it :: rest)) =
            offset :: requestedOffsets (pollLoop allowFrom offset rest) := by
          simp [pollLoop, hc, hout, requestedOffsets, List.filterMap_cons]
        rw [hred]
        refine ⟨?_, List.chain'_cons'.mpr ⟨?_, ihchain⟩⟩
        · intro o ho
          rcases List.mem_cons.mp ho with rfl | ho
          · exact le_refl _
          · exact ihmem o ho
        · intro y hy
          exact ihmem y (List.mem_of_mem_head? hy)
      | badJson e =>
        obtain ⟨ihmem, ihchain⟩ := ih offset hrest2
        have hred : requestedOffsets (pollLoop allowFrom offset (it :: rest)) =
            offset :: requestedOffsets (pollLoop allowFrom offset rest) := by
          simp [pollLoop, hc, hout, requestedOffsets, List.filterMap_cons]
        rw [hred]
        refine ⟨?_, List.chain'_cons'.mpr ⟨?_, ihchain⟩⟩
        · intro o ho
          rcases List.mem_cons.mp ho with rfl | ho
          · exact le_refl _
          · exact ihmem o ho
        · intro y hy
          exact ihmem y (List.mem_of_mem_head? hy)
      | batch g =>
        have hoff2 : offset ≤ (processBatch allowFrom offset g.result).1 :=
          (processBatch_dominates allowFrom g.result offset
            (hiters it (List.mem_cons_self _ _) g hout)).1
        obtain ⟨ihmem, ihchain⟩ := ih (processBatch allowFrom offset g.result).1 hrest2
        have hred : requestedOffsets (pollLoop allowFrom offset (it :: rest)) =
            offset :: requestedOffsets
              (pollLoop allowFrom (processBatch allowFrom offset g.result).1 rest) := by
          have h1 : pollLoop allowFrom offset (it :: rest) =
              TgAction.getUpdatesRequest offset ::
                ((processBatch allowFrom offset g.result).2.map TgAction.publish ++
                  pollLoop allowFrom (processBatch allowFrom offset g.result).1 rest) := by
            simp [pollLoop, hc, hout]
          rw [h1, requestedOffsets_request_cons, requestedOffsets_publish_append]
        rw [hred]
        refine ⟨?_, List.chain'_cons'.mpr ⟨?_, ihchain⟩⟩
        · intro o ho
          rcases List.mem_cons.mp ho with rfl | ho
          · exact le_refl _
          · exact le_trans hoff2 (ihmem o ho)
        · intro y hy
          exact le_trans hoff2 (ihmem y (List.mem_of_mem_head? hy))

/-- C10 counterexample: at `update_id = MaxInt64` (a value `encoding/json`
decodes into `int64`), the Go increment `UpdateID + 1` wraps to `MinInt64`,
so after that batch the offset is neither at least its starting value nor
strictly above every update id seen — refuting the claimed monotonicity and
strict-excess properties as stated. -/
theorem c10_counterexample :
    (processBatch [] 0 [updMax]).1 = minInt64 ∧
    ¬((0 : Int) ≤ (processBatch [] 0 [updMax]).1) ∧
    ¬(updMax.updateID < (processBatch [] 0 [updMax]).1) := by
  decide

/-- C10 amended: provided every decoded update id is a valid `int64`
strictly below `MaxInt64` (so no `UpdateID + 1` wraps), across polling
iterations the `getUpdates` offset is non-decreasing (the requested offsets
form a non-decreasing chain), after a batch the offset strictly exceeds
every update id in the batch, and — assuming the server honors the offset
parameter (every update in the next batch has id at least the requested
offset) — no update id in one batch can recur in the next, so each update is
published at most once. -/
theorem c10_amended_offset_monotone_no_overflow
    (allowFrom : List String) (offset : Int) (batch next : List TgUpdate)
    (iters : List PollIter)
    (hbatch : ∀ u ∈ batch, updateIDInRange u)
    (hiters : ∀ it ∈ iters, ∀ g, it.outcome = PollOutcome.batch g →
      ∀ u ∈ g.result, updateIDInRange u) :
    offset ≤ (processBatch allowFrom offset batch).1 ∧
    (∀ u ∈ batch, u.updateID < (processBatch allowFrom offset batch).1) ∧
    List.Chain' (· ≤ ·) (requestedOffsets (pollLoop allowFrom offset iters)) ∧
    ((∀ u ∈ next, (processBatch allowFrom offset batch).1 ≤ u.updateID) →
      ∀ u1 ∈ batch, ∀ u2 ∈ next, u1.updateID ≠ u2.updateID) := by
  obtain ⟨h1, h2⟩ := processBatch_dominates allowFrom batch offset hbatch
  refine ⟨h1, h2, (requestedOffsets_pollLoop allowFrom iters offset hiters).2, ?_⟩
  intro hhon u1 hu1 u2 hu2
  have ha := h2 u1 hu1
  have hb := hhon u2 hu2
  omega

/-- C10 amended witness: the theorem at a concrete out-of-order batch of
in-range ids and a subsequent honoring batch. -/
theorem c10_witness :
    (0 : Int) ≤ (processBatch [] 0 batchFix).1 ∧
    updFix.updateID < (processBatch [] 0 batchFix).1 ∧
    updFix.updateID ≠ ({ updateID := 7, message := some tgMsgFix } : TgUpdate).updateID := by
  have hbatch : ∀ u ∈ batchFix, updateIDInRange u := by
    intro u hu
    simp only [batchFix, List.mem_cons, List.not_mem_nil, or_false] at hu
    rcases hu with rfl | rfl
    · decide
    · decide
  have hiters : ∀ it ∈ [pollIterOkFix], ∀ g, it.outcome = PollOutcome.batch g →
      ∀ u ∈ g.result, updateIDInRange u := by
    intro it hit g hg
    simp only [List.mem_singleton] at hit
    subst hit
    simp [pollIterOkFix] at hg
  have h := c10_amended_offset_monotone_no_overflow [] 0 batchFix nextBatchFix
    [pollIterOkFix] hbatch hiters
  exact ⟨h.1, h.2.1 updFix (by decide),
    h.2.2.2 (by decide) updFix (by decide)
      { updateID := 7, message := some tgMsgFix } (by decide)⟩

end Picobot
